import Mathlib

/-!
Shallow embedding of the quadrature-encoder module of LiteX-CNC
(`src/litexcnc/firmware/modules/encoder.py`, class `EncoderModule`) and of
its register-sizing logic, together with proofs settling the specification
claims about it.

The Migen `self.sync += [...]` block of `EncoderModule.__init__` compiles to
one synchronous process with non-blocking assignments: every right-hand side
reads the value a signal had at the start of the tick, a later statement in
the block overrides an earlier assignment to the same signal, and a guarded
`If` without an `Else` assigns nothing when its condition is false (leaving
any earlier assignment in force).  `tick` below reproduces that block
statement by statement in source order.
-/

namespace LitexCnc

/-- Truncation of an integer to a signed 32-bit value (two's complement),
the semantics of storing into the signed 32-bit `counter` signal. -/
def toSigned32 (x : Int) : Int := (x + 2 ^ 31) % 2 ^ 32 - 2 ^ 31

/-- Per-instance configuration (`EncoderInstanceConfig`): the reset value and
the optional counter bounds.  `min_value`/`max_value` being `none` models the
corresponding Python attribute being `None`. -/
structure EncoderConfig where
  reset_value : Int
  min_value : Option Int
  max_value : Option Int
deriving DecidableEq

/-- The registered state of one `EncoderModule` instance: the three-stage
delay lines `pin_A_delayed`/`pin_B_delayed`/`pin_Z_delayed` (bit 0 newest),
the signed 32-bit `counter` and the flag signals. -/
structure EncoderState where
  a0 : Bool
  a1 : Bool
  a2 : Bool
  b0 : Bool
  b1 : Bool
  b2 : Bool
  z0 : Bool
  z1 : Bool
  z2 : Bool
  counter : Int
  index_enable : Bool
  index_pulse : Bool
  reset_index_pulse : Bool
deriving DecidableEq

/-- Per-tick inputs: the raw pad values and the host `reset` flag (driven
from the MMIO `reset` storage each cycle). -/
structure EncoderInput where
  pin_A : Bool
  pin_B : Bool
  pin_Z : Bool
  reset : Bool
deriving DecidableEq

/-- `self.count_ena.eq(pin_A_delayed[1] ^ pin_A_delayed[2] ^ pin_B_delayed[1]
^ pin_B_delayed[2])` — combinational, reads the delay lines. -/
def count_ena (s : EncoderState) : Bool :=
  xor (xor s.a1 s.a2) (xor s.b1 s.b2)

/-- `self.count_dir.eq(pin_A_delayed[1] ^ pin_B_delayed[2])`. -/
def count_dir (s : EncoderState) : Bool := xor s.a1 s.b2

/-- `pin_Z_delayed[1] & ~pin_Z_delayed[2]`: rising-edge detector on the
synchronized Z line. -/
def index_rising (s : EncoderState) : Bool := s.z1 && !s.z2

/-- `create_counter_increase`: with `max_value` configured the statement is
`If(counter < max_value, counter.eq(counter + 1))` — when the guard fails
nothing is assigned, so the value written earlier in the block (`fallback`)
stands; without `max_value` the counter is incremented unconditionally. -/
def create_counter_increase (cfg : EncoderConfig) (old fallback : Int) : Int :=
  match cfg.max_value with
  | some m => if old < m then toSigned32 (old + 1) else fallback
  | none => toSigned32 (old + 1)

/-- `create_counter_decrease`: mirror image with `min_value` and
`If(counter > min_value, counter.eq(counter - 1))`. -/
def create_counter_decrease (cfg : EncoderConfig) (old fallback : Int) : Int :=
  match cfg.min_value with
  | some m => if m < old then toSigned32 (old - 1) else fallback
  | none => toSigned32 (old - 1)

/-- One tick of the `self.sync` block of `EncoderModule.__init__`, statements
in source order with later assignments overriding earlier ones and every
right-hand side reading the tick-start state:
1. the three delay-line shifts (`Cat(pin, delayed[:2])`);
2. `If(z1 & ~z2, index_pulse.eq(1))`;
3. `If(reset_index_pulse & index_pulse, index_pulse.eq(reset_value),
   reset_index_pulse.eq(0))` — `index_pulse` is one bit wide, so the
   constant `reset_value` is truncated to its low bit;
4. `If(reset | (index_enable & z1 & ~z2), counter.eq(reset_value),
   index_enable.eq(0))`;
5. `If(count_ena & ~(index_enable & z1 & ~z2), If(count_dir, increase)
   .Else(decrease))`. -/
def tick (cfg : EncoderConfig) (s : EncoderState) (inp : EncoderInput) :
    EncoderState :=
  let zEdge := index_rising s
  let ieReset := s.index_enable && zEdge
  let ip1 := if zEdge then true else s.index_pulse
  let ackFire := s.reset_index_pulse && s.index_pulse
  let ip2 := if ackFire then decide (cfg.reset_value % 2 = 1) else ip1
  let ripNext := if ackFire then false else s.reset_index_pulse
  let resetFire := inp.reset || ieReset
  let c1 := if resetFire then toSigned32 cfg.reset_value else s.counter
  let ieNext := if resetFire then false else s.index_enable
  let c2 :=
    if count_ena s && !ieReset then
      if count_dir s then create_counter_increase cfg s.counter c1
      else create_counter_decrease cfg s.counter c1
    else c1
  { a0 := inp.pin_A, a1 := s.a0, a2 := s.a1
    b0 := inp.pin_B, b1 := s.b0, b2 := s.b1
    z0 := inp.pin_Z, z1 := s.z0, z2 := s.z1
    counter := c2
    index_enable := ieNext
    index_pulse := ip2
    reset_index_pulse := ripNext }

/-- Running the module over a list of per-tick inputs. -/
def run (cfg : EncoderConfig) (s : EncoderState)
    (inputs : List EncoderInput) : EncoderState :=
  inputs.foldl (tick cfg) s

/-- A tick preceded by a host write of the `reset_index_pulse` flag (the host
domain sets the flag between ticks; the tick then consumes the written
value). -/
def host_tick (cfg : EncoderConfig) (s : EncoderState) (rip : Bool)
    (inp : EncoderInput) : EncoderState :=
  tick cfg { s with reset_index_pulse := rip } inp

/-- Running a list of host-write/tick steps. -/
def run_host (cfg : EncoderConfig) :
    EncoderState → List (Bool × EncoderInput) → EncoderState
  | s, [] => s
  | s, (b, i) :: rest => run_host cfg (host_tick cfg s b i) rest

/-- `true` when no tick of the run starts with an index rising edge pending
in the synchronized Z history. -/
def no_edge_during (cfg : EncoderConfig) :
    EncoderState → List (Bool × EncoderInput) → Bool
  | _, [] => true
  | s, (b, i) :: rest =>
    !index_rising s && no_edge_during cfg (host_tick cfg s b i) rest

/-- Width of each packed flag register, from
`int(math.ceil(float(len(config.instances))/32))*32` in
`add_mmio_read_registers` / `add_mmio_write_registers`. -/
def reg_words_size (n : Nat) : Nat := ((n + 31) / 32) * 32

/-- Value of the packed flag word built by `Cat(index_pulse)` in
`create_from_config`: instance `i`'s flag lands at bit `i`. -/
def pack_flags : List Bool → Nat
  | [] => 0
  | b :: rest => (if b then 1 else 0) + 2 * pack_flags rest

/-! ### Helper lemmas -/

theorem toSigned32_eq_self {x : Int} (h1 : -2 ^ 31 ≤ x) (h2 : x < 2 ^ 31) :
    toSigned32 x = x := by
  unfold toSigned32
  omega

theorem toSigned32_range (x : Int) :
    -2 ^ 31 ≤ toSigned32 x ∧ toSigned32 x < 2 ^ 31 := by
  unfold toSigned32
  constructor <;> omega

/-! ### Claim theorems -/

/-- C7: on a tick starting with `index_enable` set and an index rising edge
present (global `reset` deasserted), the counter ends at `reset_value` and
`index_enable` ends false on that same tick; the counting branch is
suppressed by its `~(index_enable & z1 & ~z2)` guard. -/
theorem index_enable_reset_consumed (cfg : EncoderConfig) (s : EncoderState)
    (i : EncoderInput) (hie : s.index_enable = true)
    (hz : index_rising s = true) (hr : i.reset = false)
    (hlo : -2 ^ 31 ≤ cfg.reset_value) (hhi : cfg.reset_value < 2 ^ 31) :
    (tick cfg s i).counter = cfg.reset_value ∧
    (tick cfg s i).index_enable = false := by
  simp only [tick, hie, hz, hr, Bool.and_true, Bool.true_and, Bool.not_true,
    Bool.and_false, Bool.false_or, Bool.or_true, if_true]
  simp [toSigned32_eq_self hlo hhi]

/-- C7 witness: `index_enable` set, `reset_value = 5`, `counter = 33`, rising
edge on Z: the tick ends with `counter = 5` and `index_enable = false`. -/
theorem index_enable_reset_consumed_w :
    (tick ⟨5, none, none⟩
      ⟨false, false, false, false, false, false, false, true, false,
        33, true, false, false⟩
      ⟨false, false, false, false⟩).counter = 5 ∧
    (tick ⟨5, none, none⟩
      ⟨false, false, false, false, false, false, false, true, false,
        33, true, false, false⟩
      ⟨false, false, false, false⟩).index_enable = false :=
  index_enable_reset_consumed _ _ _ rfl (by decide) rfl (by decide) (by decide)

/-- C10: on a tick starting with both `reset_index_pulse` and `index_pulse`
set and no simultaneous rising edge, the acknowledgement writes the constant
`reset_value` into the one-bit `index_pulse` signal, so the pulse actually
clears exactly when `reset_value` is even, while `reset_index_pulse` is
always cleared to 0. -/
theorem ack_writes_reset_value_low_bit (cfg : EncoderConfig)
    (s : EncoderState) (i : EncoderInput) (h1 : s.reset_index_pulse = true)
    (h2 : s.index_pulse = true) (h3 : index_rising s = false) :
    ((tick cfg s i).index_pulse = false ↔ cfg.reset_value % 2 = 0) ∧
    (tick cfg s i).reset_index_pulse = false := by
  simp only [tick, h1, h2, h3, Bool.and_true, Bool.true_and, if_true,
    if_false]
  constructor
  · simp only [decide_eq_false_iff_not]
    omega
  · trivial

/-- C10 witness: with odd `reset_value = 1`, the acknowledgement leaves
`index_pulse` set (it does not clear) while `reset_index_pulse` clears. -/
theorem ack_writes_reset_value_low_bit_w :
    ((tick ⟨1, none, none⟩
      ⟨false, false, false, false, false, false, false, false, false,
        0, false, true, true⟩
      ⟨false, false, false, false⟩).index_pulse = false ↔ (1 : Int) % 2 = 0) ∧
    (tick ⟨1, none, none⟩
      ⟨false, false, false, false, false, false, false, false, false,
        0, false, true, true⟩
      ⟨false, false, false, false⟩).reset_index_pulse = false :=
  ack_writes_reset_value_low_bit _ _ _ rfl rfl (by decide)

/-- C3 counterexample: a tick starting with `reset_index_pulse` set but no
pending `index_pulse` leaves `reset_index_pulse` still set at tick end — the
acknowledgement request is not consumed, contradicting the claim that it is
always cleared. -/
theorem ack_request_persists_cex :
    (tick ⟨0, none, none⟩
      ⟨false, false, false, false, false, false, false, false, false,
        0, false, false, true⟩
      ⟨false, false, false, false⟩).reset_index_pulse = true := by
  decide

/-- C3 amended: on a tick starting with `reset_index_pulse` set, the flag is
cleared exactly when `index_pulse` was also set at tick start; with no pulse
pending, the request persists unchanged. -/
theorem ack_request_cleared_iff_pulse (cfg : EncoderConfig)
    (s : EncoderState) (i : EncoderInput)
    (h : s.reset_index_pulse = true) :
    (tick cfg s i).reset_index_pulse = !s.index_pulse := by
  simp only [tick, h, Bool.true_and]
  cases s.index_pulse <;> rfl

/-- C3 amended witness: with the pulse pending, the acknowledgement request
is cleared. -/
theorem ack_request_cleared_iff_pulse_w :
    (tick ⟨0, none, none⟩
      ⟨false, false, false, false, false, false, false, false, false,
        0, false, true, true⟩
      ⟨false, false, false, false⟩).reset_index_pulse = !true :=
  ack_request_cleared_iff_pulse _ _ _ rfl

/-- C4 counterexample: a tick with an index rising edge, a stale
acknowledgement (`reset_index_pulse` and `index_pulse` both set at tick
start) and even `reset_value = 0` ends with `index_pulse` false — the
acknowledgement statement comes later in the sync block and overrides the
edge-set, silently swallowing the new edge. -/
theorem index_pulse_edge_swallowed_cex :
    (tick ⟨0, none, none⟩
      ⟨false, false, false, false, false, false, false, true, false,
        0, false, true, true⟩
      ⟨false, false, false, false⟩).index_pulse = false := by
  decide

/-- C4 amended: on a tick with an index rising edge, `index_pulse` ends true
provided `reset_index_pulse` and `index_pulse` were not both set at tick
start; when they were, the later acknowledgement assignment overrides the
edge with the low bit of `reset_value`. -/
theorem index_pulse_set_on_edge (cfg : EncoderConfig) (s : EncoderState)
    (i : EncoderInput) (hz : index_rising s = true)
    (hnot : ¬(s.reset_index_pulse = true ∧ s.index_pulse = true)) :
    (tick cfg s i).index_pulse = true := by
  have hack : (s.reset_index_pulse && s.index_pulse) = false := by
    cases hr : s.reset_index_pulse <;> cases hp : s.index_pulse <;>
      simp_all
  simp only [tick, hz, hack, if_true, if_false]
  rfl

/-- C4 amended witness: rising edge with no stale acknowledgement sets the
pulse. -/
theorem index_pulse_set_on_edge_w :
    (tick ⟨0, none, none⟩
      ⟨false, false, false, false, false, false, false, true, false,
        0, false, false, false⟩
      ⟨false, false, false, false⟩).index_pulse = true :=
  index_pulse_set_on_edge _ _ _ (by decide) (by decide)

/-- C1 counterexample: host `reset` asserted together with a count-enable
edge (`a1 = 1`, rest of the histories 0, so `count_dir = 1`), `counter = 0`,
`reset_value = 5`, no bounds: the tick ends with `counter = 1`, not
`reset_value = 5` — the counting statement comes later in the sync block,
its guard only excludes the `index_enable`-triggered reset, and so it
overrides the global reset. -/
theorem reset_count_race_cex :
    (tick ⟨5, none, none⟩
      ⟨false, true, false, false, false, false, false, false, false,
        0, false, false, false⟩
      ⟨false, false, false, true⟩).counter = 1 ∧
    (tick ⟨5, none, none⟩
      ⟨false, true, false, false, false, false, false, false, false,
        0, false, false, false⟩
      ⟨false, false, false, true⟩).counter ≠ 5 := by
  constructor
  · decide
  · decide

/-- C1 amended: only the `index_enable`-triggered reset has absolute
priority over a simultaneous count event — with `index_enable` set and a
rising edge, the counter ends at `reset_value` even when a count-enable
edge is present.  A global host `reset` coinciding with an (unclamped,
forward) count-enable edge is overridden: the counter ends at the old
counter plus one, not at `reset_value`. -/
theorem reset_count_race (cfg : EncoderConfig) (s : EncoderState)
    (i : EncoderInput) :
    (s.index_enable = true → index_rising s = true → count_ena s = true →
      -2 ^ 31 ≤ cfg.reset_value → cfg.reset_value < 2 ^ 31 →
      (tick cfg s i).counter = cfg.reset_value) ∧
    (i.reset = true → count_ena s = true →
      (s.index_enable && index_rising s) = false → count_dir s = true →
      cfg.max_value = none →
      (tick cfg s i).counter = toSigned32 (s.counter + 1)) := by
  constructor
  · intro hie hz hena hlo hhi
    simp only [tick, hie, hz, Bool.and_true, Bool.true_and, Bool.not_true,
      Bool.and_false, Bool.or_true, if_true]
    simp [toSigned32_eq_self hlo hhi]
  · intro hr hena hne hdir hmax
    simp only [tick, hr, hena, hne, hdir, Bool.not_false, Bool.and_true,
      Bool.true_and, Bool.true_or, if_true]
    simp [create_counter_increase, hmax]

/-- C1 witness, instantiating both halves: with `index_enable`, an edge and
a count pulse the counter lands on `reset_value = 5`; with the global reset
and a count pulse it lands on `0 + 1`. -/
theorem reset_count_race_w :
    (tick ⟨5, none, none⟩
      ⟨false, true, false, false, false, false, false, true, false,
        33, true, false, false⟩
      ⟨false, false, false, true⟩).counter = 5 ∧
    (tick ⟨5, none, none⟩
      ⟨false, true, false, false, false, false, false, false, false,
        0, false, false, false⟩
      ⟨false, false, false, true⟩).counter = toSigned32 (0 + 1) :=
  ⟨(reset_count_race ⟨5, none, none⟩
      ⟨false, true, false, false, false, false, false, true, false,
        33, true, false, false⟩
      ⟨false, false, false, true⟩).1 rfl (by decide) (by decide)
      (by decide) (by decide),
   (reset_count_race ⟨5, none, none⟩
      ⟨false, true, false, false, false, false, false, false, false,
        0, false, false, false⟩
      ⟨false, false, false, true⟩).2 rfl (by decide) (by decide)
      (by decide) rfl⟩

/-- Ticks that differ only in the host `reset` input coincide when
`index_enable` is already clear and the counter already sits at the
(truncated) reset value: the reset branch then writes back the value the
counter already has. -/
theorem tick_reset_input_irrelevant (cfg : EncoderConfig)
    (s : EncoderState) (ia ib : EncoderInput)
    (hie : s.index_enable = false)
    (hc : s.counter = toSigned32 cfg.reset_value)
    (hA : ia.pin_A = ib.pin_A) (hB : ia.pin_B = ib.pin_B)
    (hZ : ia.pin_Z = ib.pin_Z) :
    tick cfg s ia = tick cfg s ib := by
  simp only [tick, hie, Bool.false_and, Bool.or_false, hA, hB, hZ]
  cases ia.reset <;> cases ib.reset <;> simp [hc]

/-- C9 counterexample: with `reset_value = 0`, `counter = 10` and an A-line
count edge pending in the history on the first tick, two consecutive
reset ticks end at `counter = 0` while reset-then-no-reset ends at
`counter = 11`: the first tick's count event overrides the reset, so the
second tick's behaviour still depends on `reset`. -/
theorem reset_idempotent_cex :
    (tick ⟨0, none, none⟩
      (tick ⟨0, none, none⟩
        ⟨true, true, false, false, false, false, false, false, false,
          10, false, false, false⟩
        ⟨false, false, false, true⟩)
      ⟨false, false, false, true⟩).counter = 0 ∧
    (tick ⟨0, none, none⟩
      (tick ⟨0, none, none⟩
        ⟨true, true, false, false, false, false, false, false, false,
          10, false, false, false⟩
        ⟨false, false, false, true⟩)
      ⟨false, false, false, false⟩).counter = 11 := by
  constructor
  · decide
  · decide

/-- C9 amended: reset is idempotent provided no count-enable edge is
present on the first reset tick (so that the counter actually lands on the
reset value): two consecutive reset ticks with identical raw A/B/Z inputs
end in exactly the state reached by a reset tick followed by a
reset-deasserted tick. -/
theorem reset_idempotent (cfg : EncoderConfig) (s : EncoderState)
    (i1 i2a i2b : EncoderInput) (hena : count_ena s = false)
    (h1 : i1.reset = true) (_ha : i2a.reset = true) (_hb : i2b.reset = false)
    (hA : i2a.pin_A = i2b.pin_A) (hB : i2a.pin_B = i2b.pin_B)
    (hZ : i2a.pin_Z = i2b.pin_Z) :
    tick cfg (tick cfg s i1) i2a = tick cfg (tick cfg s i1) i2b := by
  have hie1 : (tick cfg s i1).index_enable = false := by
    simp [tick, h1]
  have hc1 : (tick cfg s i1).counter = toSigned32 cfg.reset_value := by
    simp [tick, h1, hena]
  exact tick_reset_input_irrelevant cfg _ i2a i2b hie1 hc1 hA hB hZ

/-- C9 amended witness: quiescent histories, `counter = 10`,
`reset_value = 0`: both schedules end in the same state. -/
theorem reset_idempotent_w :
    tick ⟨0, none, none⟩
      (tick ⟨0, none, none⟩
        ⟨false, false, false, false, false, false, false, false, false,
          10, false, false, false⟩
        ⟨false, false, false, true⟩)
      ⟨false, false, false, true⟩ =
    tick ⟨0, none, none⟩
      (tick ⟨0, none, none⟩
        ⟨false, false, false, false, false, false, false, false, false,
          10, false, false, false⟩
        ⟨false, false, false, true⟩)
      ⟨false, false, false, false⟩ :=
  reset_idempotent ⟨0, none, none⟩
    ⟨false, false, false, false, false, false, false, false, false,
      10, false, false, false⟩
    ⟨false, false, false, true⟩ ⟨false, false, false, true⟩
    ⟨false, false, false, false⟩ (by decide) rfl rfl rfl rfl rfl rfl

/-- One tick keeps the counter inside configured bounds that bracket the
reset value (bounds within the signed 32-bit range, so no truncation can
escape them). -/
theorem tick_counter_bounds (cfg : EncoderConfig) (s : EncoderState)
    (i : EncoderInput) (mn mx : Int) (hmin : cfg.min_value = some mn)
    (hmax : cfg.max_value = some mx) (h1 : mn ≤ cfg.reset_value)
    (h2 : cfg.reset_value ≤ mx) (hlo : -2 ^ 31 ≤ mn) (hhi : mx < 2 ^ 31)
    (hl : mn ≤ s.counter) (hr : s.counter ≤ mx) :
    mn ≤ (tick cfg s i).counter ∧ (tick cfg s i).counter ≤ mx := by
  have hrv : toSigned32 cfg.reset_value = cfg.reset_value :=
    toSigned32_eq_self (by omega) (by omega)
  simp only [tick, create_counter_increase, create_counter_decrease, hmin,
    hmax, hrv]
  split_ifs <;> constructor <;>
    first
      | omega
      | (rw [toSigned32_eq_self (by omega) (by omega)]; omega)

/-- The 12-tick forward quadrature drive used by the C5 example: each tick
exactly one of the lines toggles, in the order that makes `count_dir` come
out as increment on every tick. -/
def c5_inputs : List EncoderInput :=
  [⟨true, false, false, false⟩, ⟨true, true, false, false⟩,
   ⟨false, true, false, false⟩, ⟨false, false, false, false⟩,
   ⟨true, false, false, false⟩, ⟨true, true, false, false⟩,
   ⟨false, true, false, false⟩, ⟨false, false, false, false⟩,
   ⟨true, false, false, false⟩, ⟨true, true, false, false⟩,
   ⟨false, true, false, false⟩, ⟨false, false, false, false⟩]

/-- Start state of the C5 example: counter at the reset value 0, histories
primed mid-pattern so every tick of `c5_inputs` carries a forward
count-enable edge. -/
def c5_start : EncoderState :=
  ⟨false, false, true, false, true, true, false, false, false,
    0, false, false, false⟩

set_option maxRecDepth 8000 in
/-- C5: with both bounds configured, in signed 32-bit range and bracketing
`reset_value`, the counter never leaves `[min_value, max_value]` under any
input sequence (increments at `max_value` and decrements at `min_value`
leave it unchanged — hard clamp); in particular, with `reset_value = 0` and
`max_value = 10`, twelve forward count edges end at `counter = 10`. -/
theorem counter_stays_in_bounds :
    (∀ (cfg : EncoderConfig) (mn mx : Int), cfg.min_value = some mn →
      cfg.max_value = some mx → mn ≤ cfg.reset_value →
      cfg.reset_value ≤ mx → -2 ^ 31 ≤ mn → mx < 2 ^ 31 →
      ∀ (s : EncoderState) (inputs : List EncoderInput),
        mn ≤ s.counter → s.counter ≤ mx →
        mn ≤ (run cfg s inputs).counter ∧
          (run cfg s inputs).counter ≤ mx) ∧
    (run ⟨0, some 0, some 10⟩ c5_start c5_inputs).counter = 10 := by
  constructor
  · intro cfg mn mx hmin hmax h1 h2 hlo hhi s inputs
    induction inputs generalizing s with
    | nil => exact fun hl hr => ⟨hl, hr⟩
    | cons i rest ih =>
      intro hl hr
      have hstep :=
        tick_counter_bounds cfg s i mn mx hmin hmax h1 h2 hlo hhi hl hr
      exact ih (tick cfg s i) hstep.1 hstep.2
  · decide

/-- C5 witness: one forward tick from the witness state stays within
`[0, 10]`. -/
theorem counter_stays_in_bounds_w :
    (0 : Int) ≤
      (run ⟨0, some 0, some 10⟩ c5_start [⟨true, false, false, false⟩]).counter ∧
    (run ⟨0, some 0, some 10⟩ c5_start [⟨true, false, false, false⟩]).counter
      ≤ 10 :=
  counter_stays_in_bounds.1 ⟨0, some 0, some 10⟩ 0 10 rfl rfl (by decide)
    (by decide) (by decide) (by decide) c5_start
    [⟨true, false, false, false⟩] (by decide) (by decide)

/-- C6 counterexample: with simultaneous edges on both lines between the
two synchronized samples (`a1 ≠ a2` and `b1 ≠ b2`), `count_ena` is false
and the counter is unchanged — the XOR cancels, producing zero count
events, not the one event the claim asserts. -/
theorem quadrature_double_edge_cex :
    count_ena
      ⟨false, true, false, false, true, false, false, false, false,
        7, false, false, false⟩ = false ∧
    (tick ⟨0, none, none⟩
      ⟨false, true, false, false, true, false, false, false, false,
        7, false, false, false⟩
      ⟨false, false, false, false⟩).counter = 7 := by
  constructor
  · decide
  · decide

set_option maxRecDepth 4000 in
/-- C6 amended: `count_enable` is asserted exactly when exactly one of the
two lines changed between the two most recent synchronized samples; when it
is asserted (and no reset interferes), `count_dir = a1 XOR b2` selects
increment versus decrement of the counter; simultaneous edges on both A and
B cancel in the XOR and produce zero count events, leaving the counter
unchanged. -/
theorem quadrature_decode (cfg : EncoderConfig) (s : EncoderState)
    (i : EncoderInput) (hr : i.reset = false)
    (hnie : (s.index_enable && index_rising s) = false) :
    (count_ena s = true ↔ Xor' (s.a1 ≠ s.a2) (s.b1 ≠ s.b2)) ∧
    (count_ena s = true → count_dir s = true →
      (tick cfg s i).counter =
        create_counter_increase cfg s.counter s.counter) ∧
    (count_ena s = true → count_dir s = false →
      (tick cfg s i).counter =
        create_counter_decrease cfg s.counter s.counter) ∧
    (s.a1 ≠ s.a2 → s.b1 ≠ s.b2 →
      count_ena s = false ∧ (tick cfg s i).counter = s.counter) := by
  obtain ⟨a0, a1, a2, b0, b1, b2, z0, z1, z2, c, ie, ip, rip⟩ := s
  simp only [count_ena, count_dir, index_rising] at hnie ⊢
  refine ⟨?_, ?_, ?_, ?_⟩
  · cases a1 <;> cases a2 <;> cases b1 <;> cases b2 <;> simp [Xor']
  · intro hena hdir
    simp only [tick, count_ena, count_dir, index_rising]
    simp only [hena, hdir, hnie, hr]
    simp
  · intro hena hdir
    simp only [tick, count_ena, count_dir, index_rising]
    simp only [hena, hdir, hnie, hr]
    simp
  · intro hA hB
    have hena : (xor (xor a1 a2) (xor b1 b2)) = false := by
      cases a1 <;> cases a2 <;> cases b1 <;> cases b2 <;>
        first
          | rfl
          | exact absurd rfl hA
          | exact absurd rfl hB
    refine ⟨hena, ?_⟩
    simp [tick, count_ena, index_rising, hena, hnie, hr]

/-- C6 amended witness: a lone A-line edge increments the counter; the
unclamped increase evaluates to `7 + 1`. -/
theorem quadrature_decode_w :
    (count_ena
      ⟨false, true, false, false, false, false, false, false, false,
        7, false, false, false⟩ = true ↔
      Xor' ((true : Bool) ≠ false) ((false : Bool) ≠ false)) ∧
    (tick ⟨0, none, none⟩
      ⟨false, true, false, false, false, false, false, false, false,
        7, false, false, false⟩
      ⟨false, false, false, false⟩).counter =
      create_counter_increase ⟨0, none, none⟩ 7 7 :=
  ⟨(quadrature_decode ⟨0, none, none⟩
      ⟨false, true, false, false, false, false, false, false, false,
        7, false, false, false⟩
      ⟨false, false, false, false⟩ rfl (by decide)).1,
   (quadrature_decode ⟨0, none, none⟩
      ⟨false, true, false, false, false, false, false, false, false,
        7, false, false, false⟩
      ⟨false, false, false, false⟩ rfl (by decide)).2.1 (by decide)
      (by decide)⟩

/-- A cleared `index_pulse` stays cleared through any run of host-write/tick
steps none of which starts with an index rising edge, whatever
`reset_index_pulse` values the host writes. -/
theorem index_pulse_stays_false (cfg : EncoderConfig) (s : EncoderState)
    (steps : List (Bool × EncoderInput)) (hip : s.index_pulse = false)
    (hne : no_edge_during cfg s steps = true) :
    (run_host cfg s steps).index_pulse = false := by
  induction steps generalizing s with
  | nil => exact hip
  | cons p rest ih =>
    obtain ⟨b, i⟩ := p
    rw [no_edge_during, Bool.and_eq_true, Bool.not_eq_true'] at hne
    obtain ⟨hz, hrest⟩ := hne
    refine ih (host_tick cfg s b i) ?_ hrest
    simp only [index_rising] at hz
    simp [host_tick, tick, index_rising, hip, hz]

/-- C2 counterexample: with odd `reset_value = 1`, a tick on which
`reset_index_pulse` and `index_pulse` are both set does not clear the pulse
(the acknowledgement writes the low bit of `reset_value`), so re-asserting
`reset_index_pulse` on the next tick with no intervening index edge leaves
`index_pulse` true, not false. -/
theorem ack_consumption_cex :
    (run_host ⟨1, none, none⟩
      (tick ⟨1, none, none⟩
        ⟨false, false, false, false, false, false, false, false, false,
          0, false, true, true⟩
        ⟨false, false, false, false⟩)
      [(true, ⟨false, false, false, false⟩)]).index_pulse = true := by
  decide

/-- C2 amended: if a tick starts with `reset_index_pulse` and `index_pulse`
both set and the acknowledgement actually clears the pulse (`index_pulse`
false at that tick's end, which requires even `reset_value`), then any
subsequent run of ticks without an index rising edge — with the host free
to assert `reset_index_pulse` before every tick — leaves `index_pulse`
false. -/
theorem ack_consumed_once (cfg : EncoderConfig) (s : EncoderState)
    (i0 : EncoderInput) (steps : List (Bool × EncoderInput))
    (_h1 : s.reset_index_pulse = true) (_h2 : s.index_pulse = true)
    (h3 : (tick cfg s i0).index_pulse = false)
    (h4 : no_edge_during cfg (tick cfg s i0) steps = true) :
    (run_host cfg (tick cfg s i0) steps).index_pulse = false :=
  index_pulse_stays_false cfg (tick cfg s i0) steps h3 h4

/-- C2 amended witness: even `reset_value = 0`, acknowledgement clears the
pulse, and a further acknowledged tick keeps it clear. -/
theorem ack_consumed_once_w :
    (run_host ⟨0, none, none⟩
      (tick ⟨0, none, none⟩
        ⟨false, false, false, false, false, false, false, false, false,
          0, false, true, true⟩
        ⟨false, false, false, false⟩)
      [(true, ⟨false, false, false, false⟩)]).index_pulse = false :=
  ack_consumed_once ⟨0, none, none⟩
    ⟨false, false, false, false, false, false, false, false, false,
      0, false, true, true⟩
    ⟨false, false, false, false⟩
    [(true, ⟨false, false, false, false⟩)] rfl rfl (by decide) (by decide)

/-- The packed flag word is bounded by `2 ^ length`. -/
theorem pack_flags_lt (fs : List Bool) : pack_flags fs < 2 ^ fs.length := by
  induction fs with
  | nil => simp [pack_flags]
  | cons b rest ih =>
    simp only [pack_flags, List.length_cons, pow_succ]
    cases b <;> simp <;> omega

/-- Bit `i` of the packed flag word is instance `i`'s flag. -/
theorem pack_flags_testBit (fs : List Bool) (i : Nat) :
    (pack_flags fs).testBit i = fs.getD i false := by
  induction fs generalizing i with
  | nil =>
    simp [pack_flags]
  | cons b rest ih =>
    cases i with
    | zero =>
      rw [Nat.testBit_zero]
      cases b <;> simp [pack_flags, Nat.add_mul_mod_self_left]
    | succ j =>
      rw [Nat.testBit_add_one]
      have : ((if b then 1 else 0) + 2 * pack_flags rest) / 2 =
          pack_flags rest := by
        cases b <;> simp <;> omega
      simp only [pack_flags, this, ih]
      rfl

/-- C8: each packed flag register (`encoder_index_pulse`,
`encoder_index_enable`, `encoder_reset_index_pulse`) is sized
`ceil(N/32)*32`: a multiple of 32, at least `N`, and less than `N + 32`
(so exactly the smallest multiple of 32 covering `N` bits); for `N = 40`
that is 64 bits; instance `i`'s flag sits at bit `i` of the packed word
and every bit from `N` upward reads zero. -/
theorem packed_register_layout (n : Nat) (fs : List Bool) (_hn : 1 ≤ n)
    (hlen : fs.length = n) :
    (n ≤ reg_words_size n ∧ reg_words_size n < n + 32 ∧
      reg_words_size n % 32 = 0) ∧
    reg_words_size 40 = 64 ∧
    (∀ i, i < n → (pack_flags fs).testBit i = fs.getD i false) ∧
    (∀ j, n ≤ j → (pack_flags fs).testBit j = false) := by
  refine ⟨?_, by decide, fun i _ => pack_flags_testBit fs i, fun j hj => ?_⟩
  · have h32 := Nat.div_add_mod (n + 31) 32
    have hmod : (n + 31) % 32 < 32 := Nat.mod_lt _ (by omega)
    refine ⟨?_, ?_, ?_⟩
    · unfold reg_words_size
      omega
    · unfold reg_words_size
      omega
    · exact Nat.mul_mod_left _ _
  · refine Nat.testBit_eq_false_of_lt ?_
    calc pack_flags fs < 2 ^ fs.length := pack_flags_lt fs
    _ ≤ 2 ^ j := Nat.pow_le_pow_right (by omega) (by omega)

/-- C8 witness: forty instances' worth of flags: width 64, bit 3 of the
packed word is instance 3's flag, bit 40 reads zero. -/
theorem packed_register_layout_w :
    (40 ≤ reg_words_size 40 ∧ reg_words_size 40 < 40 + 32 ∧
      reg_words_size 40 % 32 = 0) ∧
    reg_words_size 40 = 64 ∧
    (pack_flags (List.replicate 40 false)).testBit 3 =
      (List.replicate 40 false).getD 3 false ∧
    (pack_flags (List.replicate 40 false)).testBit 40 = false :=
  ⟨(packed_register_layout 40 (List.replicate 40 false) (by decide)
      (by decide)).1,
   (packed_register_layout 40 (List.replicate 40 false) (by decide)
      (by decide)).2.1,
   (packed_register_layout 40 (List.replicate 40 false) (by decide)
      (by decide)).2.2.1 3 (by decide),
   (packed_register_layout 40 (List.replicate 40 false) (by decide)
      (by decide)).2.2.2 40 (by decide)⟩

end LitexCnc
